import Mathlib

/-!
Shallow embedding of `src/scheduler.py` (class `EmployeeSchedule`).

Clock times are Python `datetime.time` values restricted to the fields the
program uses (hour, minute); comparisons are the tuple comparisons of Python
`time` objects.  Parsing of `"HH:MM"` and `"YYYY-MM-DD"` strings follows the
regular expressions CPython's `strptime` compiles for `%H:%M` and `%Y-%m-%d`
(including real-calendar-date validation performed by the `datetime`
constructor).  Raised `ValueError`s are modelled by `Except SchedError`.
-/

/-- Wall-clock time of day, as produced by `_parse_time`: Python `time(h, m)`
with `0 ≤ h < 24`, `0 ≤ m < 60`. -/
structure ClockTime where
  hour : Fin 24
  minute : Fin 60
deriving DecidableEq, Repr

/-- Total minutes since midnight; used only in proofs. -/
def toMin (t : ClockTime) : Nat := t.hour.val * 60 + t.minute.val

/-- Python `time.__lt__`: tuple comparison on (hour, minute). -/
def ltT (a b : ClockTime) : Bool :=
  decide (a.hour.val < b.hour.val) ||
    (decide (a.hour.val = b.hour.val) && decide (a.minute.val < b.minute.val))

/-- Python `time.__le__`: tuple comparison on (hour, minute). -/
def leT (a b : ClockTime) : Bool :=
  decide (a.hour.val < b.hour.val) ||
    (decide (a.hour.val = b.hour.val) && decide (a.minute.val ≤ b.minute.val))

/-- Python builtin `max` on two times. -/
def maxT (a b : ClockTime) : ClockTime := if ltT a b then b else a

/-- Python builtin `min` on two times. -/
def minT (a b : ClockTime) : ClockTime := if ltT b a then b else a

/-- Split a character list at every occurrence of `c` (used to model the
anchored `strptime` regexes, whose numeric fields never match `:` or `-`). -/
def splitOnChar (c : Char) : List Char → List (List Char)
  | [] => [[]]
  | x :: rest =>
    if x = c then [] :: splitOnChar c rest
    else
      match splitOnChar c rest with
      | [] => [[x]]
      | g :: gs => (x :: g) :: gs

/-- Numeric value of a nonempty all-digit character list. -/
def digitsValAux (acc : Nat) : List Char → Option Nat
  | [] => some acc
  | c :: rest => if c.isDigit then digitsValAux (acc * 10 + (c.toNat - 48)) rest else none

/-- Numeric value of a character list: `some` exactly for nonempty digit
strings. -/
def digitsVal (l : List Char) : Option Nat :=
  match l with
  | [] => none
  | _ => digitsValAux 0 l

/-- `_parse_time`: `datetime.strptime(time_str, "%H:%M").time()`.  The
compiled pattern accepts one or two digits for each field, hour `0..23`,
minute `0..59`, and requires the whole string to match. -/
def parseTimeStr (s : String) : Option ClockTime :=
  match splitOnChar ':' s.data with
  | [hs, ms] =>
    if hs.length > 2 || ms.length > 2 then none
    else
      match digitsVal hs, digitsVal ms with
      | some h, some m =>
        if hh : h < 24 then
          if hm : m < 60 then some ⟨⟨h, hh⟩, ⟨m, hm⟩⟩ else none
        else none
      | _, _ => none
  | _ => none

/-- Gregorian leap-year rule used by `datetime`. -/
def isLeapYear (y : Nat) : Bool := y % 4 == 0 && (y % 100 != 0 || y % 400 == 0)

/-- Number of days in a month, as validated by the `datetime` constructor. -/
def daysInMonth (y m : Nat) : Nat :=
  if m = 2 then (if isLeapYear y then 29 else 28)
  else if m = 4 ∨ m = 6 ∨ m = 9 ∨ m = 11 then 30
  else 31

/-- Date-string validation of `_get_day_schedule`:
`datetime.strptime(date_str, "%Y-%m-%d")`.  `%Y` is exactly four digits,
`%m`/`%d` one or two digits in range, the whole string must match, and the
resulting (year, month, day) must be a real calendar date with year ≥ 1. -/
def parseDateStr (s : String) : Option (Nat × Nat × Nat) :=
  match splitOnChar '-' s.data with
  | [ys, ms, ds] =>
    if ys.length ≠ 4 || ms.length > 2 || ds.length > 2 then none
    else
      match digitsVal ys, digitsVal ms, digitsVal ds with
      | some y, some m, some d =>
        if 1 ≤ y && 1 ≤ m && m ≤ 12 && 1 ≤ d && d ≤ daysInMonth y m then some (y, m, d)
        else none
      | _, _, _ => none
  | _ => none

/-- A busy, free or requested interval: a `(start, end)` pair of times. -/
abbrev Slot := ClockTime × ClockTime

/-- One entry of `processed_schedule`: `{"work_hours": ..., "busy_slots": ...}`. -/
structure DaySchedule where
  workHours : ClockTime × ClockTime
  busySlots : List Slot
deriving DecidableEq, Repr

/-- `self.schedule`: the date-string-keyed dictionary, as an association list
in insertion order with unique keys. -/
abbrev ScheduleModel := List (String × DaySchedule)

/-- The `ValueError`s the scheduler raises, by call site. -/
inductive SchedError where
  | invalidDateFormat
  | invalidTimeFormat
  | invalidRange
  | invalidDuration
  | formatError
deriving DecidableEq, Repr

/-- A record of the source payload's `days` collection. -/
structure DayRecord where
  id : Int
  date : String
  startStr : String
  endStr : String
deriving DecidableEq, Repr

/-- A record of the source payload's `timeslots` collection. -/
structure SlotRecord where
  day_id : Int
  startStr : String
  endStr : String
deriving DecidableEq, Repr

/-- The decoded JSON payload consumed by `_fetch_and_process_data`. -/
structure RawData where
  days : List DayRecord
  timeslots : List SlotRecord
deriving DecidableEq, Repr

/-- Python `dict` assignment on an association list: overwrite in place if the
key exists, else append. -/
def dictInsert {α β : Type} [DecidableEq α] (k : α) (v : β) : List (α × β) → List (α × β)
  | [] => [(k, v)]
  | (k', v') :: rest => if k' = k then (k, v) :: rest else (k', v') :: dictInsert k v rest

/-- `days_by_id = {day["id"]: day for day in data.get("days", [])}`. -/
def daysByIdOf (raw : RawData) : List (Int × DayRecord) :=
  raw.days.foldl (fun acc d => dictInsert d.id d acc) []

/-- First loop of `_fetch_and_process_data`: build `processed_schedule` from
the `days_by_id` entries, parsing each day's `start`/`end` times. -/
def buildDaysAux (acc : ScheduleModel) : List (Int × DayRecord) → Except SchedError ScheduleModel
  | [] => .ok acc
  | (_, day) :: rest =>
    match parseTimeStr day.startStr, parseTimeStr day.endStr with
    | some s, some e => buildDaysAux (dictInsert day.date ⟨(s, e), []⟩ acc) rest
    | _, _ => .error .formatError

/-- `processed_schedule[date_str]["busy_slots"].append(busy_slot)`. -/
def appendBusy (k : String) (v : Slot) : ScheduleModel → ScheduleModel
  | [] => []
  | (k', d) :: rest =>
    if k' = k then (k', ⟨d.workHours, d.busySlots ++ [v]⟩) :: rest
    else (k', d) :: appendBusy k v rest

/-- Second loop of `_fetch_and_process_data`: resolve each timeslot's
`day_id`; unknown ids are skipped, resolvable slots have their times parsed
and are appended to their date's busy list. -/
def addSlotsAux (daysById : List (Int × DayRecord)) (acc : ScheduleModel) :
    List SlotRecord → Except SchedError ScheduleModel
  | [] => .ok acc
  | slot :: rest =>
    match daysById.lookup slot.day_id with
    | some day =>
      match parseTimeStr slot.startStr, parseTimeStr slot.endStr with
      | some s, some e => addSlotsAux daysById (appendBusy day.date (s, e) acc) rest
      | _, _ => .error .formatError
    | none => addSlotsAux daysById acc rest

/-- Stable insertion used to model the stable `list.sort(key=lambda x: x[0])`. -/
def insertSlotByStart (x : Slot) : List Slot → List Slot
  | [] => [x]
  | y :: rest => if ltT x.1 y.1 then x :: y :: rest else y :: insertSlotByStart x rest

/-- `busy_slots.sort(key=lambda x: x[0])`: stable sort by start time. -/
def sortByStart (l : List Slot) : List Slot :=
  l.foldl (fun acc x => insertSlotByStart x acc) []

/-- `_fetch_and_process_data` after a successful fetch and JSON decode: build
`days_by_id`, build the per-date model, attach resolvable timeslots, sort
each date's busy list by start time. -/
def processData (raw : RawData) : Except SchedError ScheduleModel :=
  let dbi := daysByIdOf raw
  match buildDaysAux [] dbi with
  | .error e => .error e
  | .ok m =>
    match addSlotsAux dbi m raw.timeslots with
    | .error e => .error e
    | .ok m2 => .ok (m2.map (fun p => (p.1, ⟨p.2.workHours, sortByStart p.2.busySlots⟩)))

/-- `_get_day_schedule`: validate the date string, then `self.schedule.get`. -/
def getDaySchedule (m : ScheduleModel) (ds : String) : Except SchedError (Option DaySchedule) :=
  match parseDateStr ds with
  | none => .error .invalidDateFormat
  | some _ => .ok (m.lookup ds)

/-- `get_busy_slots`. -/
def get_busy_slots (m : ScheduleModel) (ds : String) : Except SchedError (List Slot) :=
  match getDaySchedule m ds with
  | .error e => .error e
  | .ok none => .ok []
  | .ok (some day) => .ok day.busySlots

/-- The sweep loop of `get_free_slots` (lines 78-88): `cursor` starts at
`work_start`; each busy interval whose start lies beyond the cursor emits a
free gap, and the cursor advances to `max(cursor, busy_end)`; a final gap up
to `work_end` is emitted if the cursor has not reached it. -/
def freeSlotsSweep (cursor workEnd : ClockTime) : List Slot → List Slot
  | [] => if ltT cursor workEnd then [(cursor, workEnd)] else []
  | (bs, be) :: rest =>
    if ltT cursor bs then (cursor, bs) :: freeSlotsSweep (maxT cursor be) workEnd rest
    else freeSlotsSweep (maxT cursor be) workEnd rest

/-- `get_free_slots`. -/
def get_free_slots (m : ScheduleModel) (ds : String) : Except SchedError (List Slot) :=
  match getDaySchedule m ds with
  | .error e => .error e
  | .ok none => .ok []
  | .ok (some day) => .ok (freeSlotsSweep day.workHours.1 day.workHours.2 day.busySlots)

/-- Lines 100-112 of `is_slot_available`: the part after both time strings
have parsed and the range check has passed — date lookup, containment in the
working hours, and the open-interval overlap test against each busy slot. -/
def availAfterLookup (m : ScheduleModel) (ds : String) (s e : ClockTime) :
    Except SchedError Bool :=
  match getDaySchedule m ds with
  | .error err => .error err
  | .ok none => .ok false
  | .ok (some day) =>
    if !(leT day.workHours.1 s && leT e day.workHours.2) then .ok false
    else if day.busySlots.any (fun b => ltT (maxT s b.1) (minT e b.2)) then .ok false
    else .ok true

/-- `is_slot_available`: parse both time strings (raising on failure), check
`check_start < check_end`, then consult the date. -/
def is_slot_available (m : ScheduleModel) (ds ss es : String) : Except SchedError Bool :=
  match parseTimeStr ss, parseTimeStr es with
  | some s, some e =>
    if leT e s then .error .invalidRange
    else availAfterLookup m ds s e
  | _, _ => .error .invalidTimeFormat

/-- `datetime(2000, 1, 1).date().toordinal()`: the fixed dummy date. -/
def dummyDateOrdinal : Nat := 730120

/-- `datetime.combine(dummy_date, t)`, measured in whole minutes (all
combined datetimes have zero seconds and microseconds). -/
def combineDummy (t : ClockTime) : Int :=
  (dummyDateOrdinal : Int) * 1440 + (t.hour.val * 60 + t.minute.val)

/-- `datetime.combine(dummy_date, free_end) - datetime.combine(dummy_date,
free_start)`, in minutes — the duration computed inside
`find_available_slots_for_duration`. -/
def spanViaDummy (s e : ClockTime) : Int := combineDummy e - combineDummy s

/-- Direct clock-time subtraction in minutes:
`(endHour*60 + endMin) - (startHour*60 + startMin)`. -/
def spanDirect (s e : ClockTime) : Int :=
  ((e.hour.val * 60 + e.minute.val : Nat) : Int) - ((s.hour.val * 60 + s.minute.val : Nat) : Int)

/-- `if date_str not in suitable_slots: suitable_slots[date_str] = []` followed
by `suitable_slots[date_str].append(v)`. -/
def dictAppendSlot (k : String) (v : Slot) : List (String × List Slot) → List (String × List Slot)
  | [] => [(k, [v])]
  | (k', l) :: rest => if k' = k then (k', l ++ [v]) :: rest else (k', l) :: dictAppendSlot k v rest

/-- Python `str.__lt__` on single characters: code-point comparison. -/
def charLt (a b : Char) : Bool := decide (a.val < b.val)

/-- Python `str.__lt__`: lexicographic comparison by code point. -/
def charsLt : List Char → List Char → Bool
  | [], [] => false
  | [], _ :: _ => true
  | _ :: _, [] => false
  | a :: as, b :: bs => charLt a b || (a == b && charsLt as bs)

/-- Python `str.__lt__` on strings. -/
def strLt (a b : String) : Bool := charsLt a.data b.data

/-- Insertion step of a stable ascending string sort. -/
def insertStr (x : String) : List String → List String
  | [] => [x]
  | y :: rest => if strLt x y then x :: y :: rest else y :: insertStr x rest

/-- `sorted(self.schedule.keys())`: ascending lexicographic string sort. -/
def sortStrs (l : List String) : List String :=
  l.foldl (fun acc x => insertStr x acc) []

/-- Main loop of `find_available_slots_for_duration`: for each date (in
sorted key order) compute the free slots and append every slot of sufficient
duration to that date's entry of `suitable_slots`. -/
def findAux (m : ScheduleModel) (dur : Int) :
    List String → List (String × List Slot) → Except SchedError (List (String × List Slot))
  | [], acc => .ok acc
  | ds :: rest, acc =>
    match get_free_slots m ds with
    | .error e => .error e
    | .ok free =>
      findAux m dur rest
        (free.foldl (fun a p => if dur ≤ spanViaDummy p.1 p.2 then dictAppendSlot ds p a else a) acc)

/-- `find_available_slots_for_duration`. -/
def find_available_slots_for_duration (m : ScheduleModel) (dur : Int) :
    Except SchedError (List (String × List Slot)) :=
  if dur ≤ 0 then .error .invalidDuration
  else findAux m dur (sortStrs (m.map Prod.fst)) []

deriving instance DecidableEq for Except

/-- Sweep written from the specification's words (spec §4.2 op 2): starting
with `cursor = workHours.start`, for each busy interval `(bStart, bEnd)` in
ascending start order emit `(cursor, bStart)` exactly when `cursor < bStart`
and then set `cursor = max(cursor, bEnd)`; after the sweep emit
`(cursor, workHours.end)` exactly when `cursor < workHours.end`. -/
def specSweep (cursor workEnd : ClockTime) : List Slot → List Slot
  | [] => if ltT cursor workEnd then [(cursor, workEnd)] else []
  | b :: rest =>
    (if ltT cursor b.1 then [(cursor, b.1)] else []) ++ specSweep (maxT cursor b.2) workEnd rest

/-- Membership of a time point in the half-open interval of a slot. -/
def slotContains (t : ClockTime) (p : Slot) : Bool := leT p.1 t && ltT t p.2

/-- Membership of a time point in the half-open interval `[a, b)`. -/
def inIvB (t a b : ClockTime) : Bool := leT a t && ltT t b

/-- Open-interval overlap test of `is_slot_available`:
`max(aStart, bStart) < min(aEnd, bEnd)`. -/
def overlapB (a b : Slot) : Bool := ltT (maxT a.1 b.1) (minT a.2 b.2)

/-- Every two distinct slots of the list pass the non-overlap test. -/
def pairwiseDisjointB : List Slot → Bool
  | [] => true
  | a :: rest => rest.all (fun b => !overlapB a b) && pairwiseDisjointB rest

/-- The list is sorted ascending by slot start. -/
def sortedByStartB : List Slot → Bool
  | [] => true
  | [_] => true
  | a :: b :: rest => leT a.1 b.1 && sortedByStartB (b :: rest)

/-- The invariant claimed for free-slot lists: every slot has start strictly
before end, and each slot ends no later than the next begins (hence the list
is sorted ascending by start and pairwise disjoint). -/
def slotsInvariantB : List Slot → Bool
  | [] => true
  | [p] => ltT p.1 p.2
  | p :: q :: rest => ltT p.1 p.2 && leT p.2 q.1 && slotsInvariantB (q :: rest)

/-- Both clock times of a day record parse. -/
def dayTimesOk (d : DayRecord) : Bool :=
  (parseTimeStr d.startStr).isSome && (parseTimeStr d.endStr).isSome

/-- Both clock times of a timeslot record parse. -/
def slotTimesOk (s : SlotRecord) : Bool :=
  (parseTimeStr s.startStr).isSome && (parseTimeStr s.endStr).isSome

/-- The timeslot's `day_id` matches a day record. -/
def slotResolvable (raw : RawData) (s : SlotRecord) : Bool :=
  ((daysByIdOf raw).lookup s.day_id).isSome

/-- Busy slots stored for a date (empty when the date is absent). -/
def busyOf (m : ScheduleModel) (ds : String) : List Slot :=
  match m.lookup ds with
  | none => []
  | some day => day.busySlots

/-- Free slots of a qualifying duration, with the span written as the
specification words it: direct clock-time subtraction in minutes. -/
def qualifying (dur : Int) (free : List Slot) : List Slot :=
  free.filter (fun p => dur ≤ spanDirect p.1 p.2)

/-- Duration search written from the specification's words (spec §4.2 op 4):
each date present in the model, in ascending date order, mapped to its free
slots of span at least the requested duration; dates contributing no
qualifying slot are omitted. -/
def findSpec (m : ScheduleModel) (dur : Int) : List (String × List Slot) :=
  (sortStrs (m.map Prod.fst)).filterMap (fun ds =>
    match m.lookup ds with
    | none => none
    | some day =>
      let q := qualifying dur (freeSlotsSweep day.workHours.1 day.workHours.2 day.busySlots)
      if q = [] then none else some (ds, q))

/-- Source payload of the repository's unit tests (`MOCK_API_DATA`). -/
def demoRaw : RawData :=
  ⟨[⟨1, "2024-10-10", "09:00", "18:00"⟩, ⟨2, "2024-10-11", "08:00", "17:00"⟩],
   [⟨1, "11:00", "12:00"⟩, ⟨1, "15:00", "15:30"⟩, ⟨2, "09:30", "16:00"⟩]⟩

/-- The schedule model built from `demoRaw`. -/
def demoModel : ScheduleModel :=
  [("2024-10-10", ⟨(⟨9, 0⟩, ⟨18, 0⟩), [(⟨11, 0⟩, ⟨12, 0⟩), (⟨15, 0⟩, ⟨15, 30⟩)]⟩),
   ("2024-10-11", ⟨(⟨8, 0⟩, ⟨17, 0⟩), [(⟨9, 30⟩, ⟨16, 0⟩)]⟩)]

/-- A source payload whose only timeslot is inverted (ends before it starts). -/
def invertedSlotRaw : RawData :=
  ⟨[⟨1, "2024-10-10", "09:00", "18:00"⟩], [⟨1, "12:00", "10:00"⟩]⟩

/-- The schedule model built from `invertedSlotRaw`. -/
def invertedSlotModel : ScheduleModel :=
  [("2024-10-10", ⟨(⟨9, 0⟩, ⟨18, 0⟩), [(⟨12, 0⟩, ⟨10, 0⟩)]⟩)]

/-- A source payload whose only timeslot starts before the working hours. -/
def earlySlotRaw : RawData :=
  ⟨[⟨1, "2024-10-10", "09:00", "18:00"⟩], [⟨1, "08:00", "10:00"⟩]⟩

/-- The schedule model built from `earlySlotRaw`. -/
def earlySlotModel : ScheduleModel :=
  [("2024-10-10", ⟨(⟨9, 0⟩, ⟨18, 0⟩), [(⟨8, 0⟩, ⟨10, 0⟩)]⟩)]

/-- A source payload with one valid day and one timeslot whose `day_id`
matches no day and whose start time is not a valid `HH:MM` string. -/
def orphanBadTimeRaw : RawData :=
  ⟨[⟨1, "2024-10-10", "09:00", "18:00"⟩], [⟨2, "9-XX", "10:00"⟩]⟩

lemma ltT_iff (a b : ClockTime) : ltT a b = true ↔ toMin a < toMin b := by
  have h1 := a.minute.isLt
  have h2 := b.minute.isLt
  simp [ltT, toMin, Bool.or_eq_true, Bool.and_eq_true, decide_eq_true_eq]
  omega

lemma leT_iff (a b : ClockTime) : leT a b = true ↔ toMin a ≤ toMin b := by
  have h1 := a.minute.isLt
  have h2 := b.minute.isLt
  simp [leT, toMin, Bool.or_eq_true, Bool.and_eq_true, decide_eq_true_eq]
  omega

lemma ltT_eq_false_iff (a b : ClockTime) : ltT a b = false ↔ toMin b ≤ toMin a := by
  rw [← Bool.not_eq_true, not_iff_comm, ltT_iff]
  omega

lemma leT_eq_false_iff (a b : ClockTime) : leT a b = false ↔ toMin b < toMin a := by
  rw [← Bool.not_eq_true, not_iff_comm, leT_iff]
  omega

lemma toMin_maxT (a b : ClockTime) : toMin (maxT a b) = max (toMin a) (toMin b) := by
  by_cases h : ltT a b = true
  · have h2 := (ltT_iff a b).mp h
    simp [maxT, h]; omega
  · have h2 : ¬ toMin a < toMin b := fun hc => h ((ltT_iff a b).mpr hc)
    simp [maxT, h]; omega

lemma toMin_minT (a b : ClockTime) : toMin (minT a b) = min (toMin a) (toMin b) := by
  by_cases h : ltT b a = true
  · have h2 := (ltT_iff b a).mp h
    simp [minT, h]; omega
  · have h2 : ¬ toMin b < toMin a := fun hc => h ((ltT_iff b a).mpr hc)
    simp [minT, h]; omega

lemma slotContains_iff (t : ClockTime) (p : Slot) :
    slotContains t p = true ↔ toMin p.1 ≤ toMin t ∧ toMin t < toMin p.2 := by
  simp [slotContains, Bool.and_eq_true, leT_iff, ltT_iff]

lemma inIvB_iff (t a b : ClockTime) :
    inIvB t a b = true ↔ toMin a ≤ toMin t ∧ toMin t < toMin b := by
  simp [inIvB, Bool.and_eq_true, leT_iff, ltT_iff]

lemma spanViaDummy_eq_spanDirect (s e : ClockTime) : spanViaDummy s e = spanDirect s e := by
  simp [spanViaDummy, spanDirect, combineDummy]

lemma getDaySchedule_of_isSome (m : ScheduleModel) (ds : String)
    (h : (parseDateStr ds).isSome = true) : getDaySchedule m ds = .ok (m.lookup ds) := by
  rcases ho : parseDateStr ds with _ | v
  · rw [ho] at h; simp at h
  · simp [getDaySchedule, ho]

lemma getDaySchedule_of_none (m : ScheduleModel) (ds : String)
    (h : parseDateStr ds = none) : getDaySchedule m ds = .error .invalidDateFormat := by
  simp [getDaySchedule, h]

lemma freeSlotsSweep_eq_specSweep (workEnd : ClockTime) :
    ∀ (busy : List Slot) (cursor : ClockTime),
      freeSlotsSweep cursor workEnd busy = specSweep cursor workEnd busy := by
  intro busy
  induction busy with
  | nil => intro cursor; rfl
  | cons b rest ih =>
    intro cursor
    rcases b with ⟨bs, be⟩
    by_cases h : ltT cursor bs = true
    · simp [freeSlotsSweep, specSweep, h, ih]
    · simp [freeSlotsSweep, specSweep, h, ih]

/-- C9: for every pair of clock times, the free-slot span computed in
`find_available_slots_for_duration` by anchoring both times to the fixed
dummy calendar date 2000-01-01 and subtracting the combined datetimes equals
the direct clock-time subtraction `(endHour*60 + endMin) - (startHour*60 +
startMin)` in minutes; no interval crosses midnight, so the dummy date
cancels. -/
theorem C9_span_via_dummy_eq_direct (s e : ClockTime) : spanViaDummy s e = spanDirect s e :=
  spanViaDummy_eq_spanDirect s e

/-- C6: for each query operation taking a date string (`get_busy_slots`,
`get_free_slots`, `is_slot_available`), a date string that does not parse as
a real `YYYY-MM-DD` calendar date fails with `InvalidDateFormat` before any
model lookup, for every model — hence independently of whether the date is
present.  For `is_slot_available` the time arguments are assumed well formed
and ordered, since their validation precedes the date check. -/
theorem C6_invalid_date_rejected_before_lookup (m : ScheduleModel) (ds ss es : String)
    (s e : ClockTime) (hd : parseDateStr ds = none)
    (hs : parseTimeStr ss = some s) (he : parseTimeStr es = some e)
    (hlt : ltT s e = true) :
    get_busy_slots m ds = .error .invalidDateFormat ∧
    get_free_slots m ds = .error .invalidDateFormat ∧
    is_slot_available m ds ss es = .error .invalidDateFormat := by
  have hg := getDaySchedule_of_none m ds hd
  have hts : leT e s = false := by
    rw [leT_eq_false_iff]
    exact (ltT_iff s e).mp hlt
  refine ⟨?_, ?_, ?_⟩
  · simp [get_busy_slots, hg]
  · simp [get_free_slots, hg]
  · simp [is_slot_available, hs, he, hts, availAfterLookup, hg]

/-- Witness for C6: the malformed date `"2024/10/10"` is rejected by all
three query operations on the unit-test model. -/
theorem C6_witness :
    get_busy_slots demoModel "2024/10/10" = .error .invalidDateFormat ∧
    get_free_slots demoModel "2024/10/10" = .error .invalidDateFormat ∧
    is_slot_available demoModel "2024/10/10" "10:00" "11:00" = .error .invalidDateFormat :=
  C6_invalid_date_rejected_before_lookup demoModel "2024/10/10" "10:00" "11:00"
    ⟨10, 0⟩ ⟨11, 0⟩ (by decide) (by decide) (by decide) (by decide)

/-- C7: in `is_slot_available` the failure modes are checked in a fixed
order: an unparsable `startTime` or `endTime` fails with `InvalidTimeFormat`
first (regardless of the date string or the range); with both times parsed,
`startTime >= endTime` fails with `InvalidRange` (regardless of the date
string); only when both checks pass does the computation proceed to the date
lookup (`availAfterLookup`, lines 100-112). -/
theorem C7_validation_order (m : ScheduleModel) (ds ss es : String) :
    ((parseTimeStr ss = none ∨ parseTimeStr es = none) →
        is_slot_available m ds ss es = .error .invalidTimeFormat) ∧
    (∀ s e : ClockTime, parseTimeStr ss = some s → parseTimeStr es = some e →
        leT e s = true → is_slot_available m ds ss es = .error .invalidRange) ∧
    (∀ s e : ClockTime, parseTimeStr ss = some s → parseTimeStr es = some e →
        leT e s = false → is_slot_available m ds ss es = availAfterLookup m ds s e) := by
  refine ⟨?_, ?_, ?_⟩
  · intro h
    rcases hps : parseTimeStr ss with _ | s
    · simp [is_slot_available, hps]
    · rcases hpe : parseTimeStr es with _ | e
      · simp [is_slot_available, hps, hpe]
      · rcases h with h | h
        · rw [hps] at h; cases h
        · rw [hpe] at h; cases h
  · intro s e hps hpe hord
    simp [is_slot_available, hps, hpe, hord]
  · intro s e hps hpe hord
    simp [is_slot_available, hps, hpe, hord]

/-- Witness for C7: a malformed start time is reported as
`InvalidTimeFormat` even though the end time is also malformed and the
requested range would also be invalid. -/
theorem C7_witness :
    is_slot_available demoModel "2024-10-10" "9-00" "10-00" = .error .invalidTimeFormat :=
  (C7_validation_order demoModel "2024-10-10" "9-00" "10-00").1 (Or.inl (by decide))

/-- C8: for a well-formed date string absent from the model,
`get_busy_slots` and `get_free_slots` return the empty list and
`is_slot_available` (with well-formed, ordered times) returns `false`; none
of them signals an error. -/
theorem C8_absent_date_empty_and_unavailable (m : ScheduleModel) (ds ss es : String)
    (s e : ClockTime) (hd : (parseDateStr ds).isSome = true) (habs : m.lookup ds = none)
    (hs : parseTimeStr ss = some s) (he : parseTimeStr es = some e)
    (hlt : ltT s e = true) :
    get_busy_slots m ds = .ok [] ∧
    get_free_slots m ds = .ok [] ∧
    is_slot_available m ds ss es = .ok false := by
  have hg := getDaySchedule_of_isSome m ds hd
  rw [habs] at hg
  have hts : leT e s = false := by
    rw [leT_eq_false_iff]
    exact (ltT_iff s e).mp hlt
  refine ⟨?_, ?_, ?_⟩
  · simp [get_busy_slots, hg]
  · simp [get_free_slots, hg]
  · simp [is_slot_available, hs, he, hts, availAfterLookup, hg]

/-- Witness for C8: `"2024-10-12"` is a valid date absent from the unit-test
model. -/
theorem C8_witness :
    get_busy_slots demoModel "2024-10-12" = .ok [] ∧
    get_free_slots demoModel "2024-10-12" = .ok [] ∧
    is_slot_available demoModel "2024-10-12" "10:00" "11:00" = .ok false :=
  C8_absent_date_empty_and_unavailable demoModel "2024-10-12" "10:00" "11:00"
    ⟨10, 0⟩ ⟨11, 0⟩ (by decide) (by decide) (by decide) (by decide) (by decide)

/-- C1: for every date present in the model (with its busy list stored in
ascending start order, as ingestion guarantees), `get_free_slots` returns
exactly the result of the specification's sweep: starting with `cursor =
workHours.start`, each busy interval `(bStart, bEnd)` in ascending start
order emits the free interval `(cursor, bStart)` exactly when
`cursor < bStart` and then sets `cursor = max(cursor, bEnd)`; after the
sweep, `(cursor, workHours.end)` is emitted exactly when
`cursor < workHours.end`. -/
theorem C1_free_slots_eq_spec_sweep (m : ScheduleModel) (ds : String) (day : DaySchedule)
    (hd : (parseDateStr ds).isSome = true) (hlook : m.lookup ds = some day)
    (hsorted : sortedByStartB day.busySlots = true) :
    get_free_slots m ds = .ok (specSweep day.workHours.1 day.workHours.2 day.busySlots) := by
  have hg := getDaySchedule_of_isSome m ds hd
  rw [hlook] at hg
  simp [get_free_slots, hg, freeSlotsSweep_eq_specSweep]

/-- Witness for C1 on the unit-test model. -/
theorem C1_witness :
    get_free_slots demoModel "2024-10-10" =
      .ok (specSweep ⟨9, 0⟩ ⟨18, 0⟩ [(⟨11, 0⟩, ⟨12, 0⟩), (⟨15, 0⟩, ⟨15, 30⟩)]) :=
  C1_free_slots_eq_spec_sweep demoModel "2024-10-10"
    ⟨(⟨9, 0⟩, ⟨18, 0⟩), [(⟨11, 0⟩, ⟨12, 0⟩), (⟨15, 0⟩, ⟨15, 30⟩)]⟩
    (by decide) (by decide) (by decide)

lemma sweep_invariant (workEnd : ClockTime) :
    ∀ (busy : List Slot) (cursor : ClockTime),
      (∀ s ∈ busy, toMin s.1 ≤ toMin s.2) →
      slotsInvariantB (freeSlotsSweep cursor workEnd busy) = true ∧
        ∀ p ∈ freeSlotsSweep cursor workEnd busy, toMin cursor ≤ toMin p.1 := by
  intro busy
  induction busy with
  | nil =>
    intro cursor _
    by_cases h : ltT cursor workEnd = true
    · refine ⟨?_, ?_⟩
      · simp [freeSlotsSweep, h, slotsInvariantB]
      · intro p hp
        simp [freeSlotsSweep, h] at hp
        subst hp
        exact le_refl _
    · simp [freeSlotsSweep, h, slotsInvariantB]
  | cons b rest ih =>
    intro cursor hni
    rcases b with ⟨bs, be⟩
    have hbe : toMin bs ≤ toMin be := hni (bs, be) (by simp)
    have hrest : ∀ s ∈ rest, toMin s.1 ≤ toMin s.2 := fun s hs => hni s (by simp [hs])
    rcases ih (maxT cursor be) hrest with ⟨hinv, hge⟩
    have hcur : toMin cursor ≤ toMin (maxT cursor be) := by
      rw [toMin_maxT]; omega
    by_cases h : ltT cursor bs = true
    · have hlt := (ltT_iff cursor bs).mp h
      have hstep : freeSlotsSweep cursor workEnd ((bs, be) :: rest) =
          (cursor, bs) :: freeSlotsSweep (maxT cursor be) workEnd rest := by
        simp [freeSlotsSweep, h]
      rw [hstep]
      refine ⟨?_, ?_⟩
      · rcases hs : freeSlotsSweep (maxT cursor be) workEnd rest with _ | ⟨q, srest⟩
        · simp [slotsInvariantB, h]
        · have hq : toMin (maxT cursor be) ≤ toMin q.1 := by
            apply hge; rw [hs]; simp
          have hbq : toMin bs ≤ toMin q.1 := by
            rw [toMin_maxT] at hq; omega
          rw [hs] at hinv
          have h1 : leT bs q.1 = true := (leT_iff bs q.1).mpr hbq
          simp [slotsInvariantB, h, h1, hinv]
      · intro p hp
        rcases List.mem_cons.mp hp with hp | hp
        · subst hp
          simp
        · have := hge p hp
          omega
    · have hstep : freeSlotsSweep cursor workEnd ((bs, be) :: rest) =
          freeSlotsSweep (maxT cursor be) workEnd rest := by
        simp [freeSlotsSweep, h]
      rw [hstep]
      exact ⟨hinv, fun p hp => le_trans hcur (hge p hp)⟩

/-- C10 counterexample: the claim asserts the free-slot list is always
sorted with pairwise-disjoint, positive-length intervals for every
constructed model; but ingestion accepts an inverted busy slot
(`12:00`-`10:00`), and the sweep then emits the overlapping free list
`[(09:00, 12:00), (10:00, 18:00)]`. -/
theorem C10_counterexample :
    processData invertedSlotRaw = .ok invertedSlotModel ∧
    get_free_slots invertedSlotModel "2024-10-10" =
      .ok [(⟨9, 0⟩, ⟨12, 0⟩), (⟨10, 0⟩, ⟨18, 0⟩)] ∧
    pairwiseDisjointB [(⟨9, 0⟩, ⟨12, 0⟩), (⟨10, 0⟩, ⟨18, 0⟩)] = false ∧
    slotsInvariantB [(⟨9, 0⟩, ⟨12, 0⟩), (⟨10, 0⟩, ⟨18, 0⟩)] = false := by
  refine ⟨by decide, by decide, by decide, by decide⟩

/-- C10 (amended): for every model and well-formed date string, provided
every busy slot stored for that date has start ≤ end, the list returned by
`get_free_slots` consists of intervals with start strictly less than end,
each ending no later than the next begins — hence sorted ascending by start
and pairwise disjoint.  This holds even when busy slots overlap one another,
extend outside the working hours, or when `workHours.start >=
workHours.end`. -/
theorem C10_free_slots_invariant (m : ScheduleModel) (ds : String)
    (hd : (parseDateStr ds).isSome = true)
    (hb : ∀ s ∈ busyOf m ds, leT s.1 s.2 = true) :
    ∃ l, get_free_slots m ds = .ok l ∧ slotsInvariantB l = true := by
  have hg := getDaySchedule_of_isSome m ds hd
  rcases hlook : m.lookup ds with _ | day
  · rw [hlook] at hg
    refine ⟨[], by simp [get_free_slots, hg], rfl⟩
  · rw [hlook] at hg
    refine ⟨freeSlotsSweep day.workHours.1 day.workHours.2 day.busySlots, ?_, ?_⟩
    · simp [get_free_slots, hg]
    have hb' : ∀ s ∈ day.busySlots, toMin s.1 ≤ toMin s.2 := by
      intro s hs
      exact (leT_iff _ _).mp (hb s (by simp [busyOf, hlook, hs]))
    exact (sweep_invariant day.workHours.2 day.busySlots day.workHours.1 hb').1

/-- Witness for C10 (amended) on the unit-test model, whose busy slots are
all well formed. -/
theorem C10_witness :
    ∃ l, get_free_slots demoModel "2024-10-10" = .ok l ∧ slotsInvariantB l = true :=
  C10_free_slots_invariant demoModel "2024-10-10" (by decide) (by decide)

/-- C2: for a date present in the model and a well-formed requested interval
with `startTime < endTime`, `is_slot_available` returns `true` exactly when
the request is contained in the working hours (`workHours.start <= startTime`
and `endTime <= workHours.end`) and passes the open-interval non-overlap
test `max(reqStart, bStart) < min(reqEnd, bEnd)` against every busy slot; in
particular a boundary-touching request (`endTime == bStart` or `startTime ==
bEnd`) does not overlap and is available. -/
theorem C2_slot_available_iff (m : ScheduleModel) (ds ss es : String) (s e : ClockTime)
    (day : DaySchedule) (hd : (parseDateStr ds).isSome = true) (hlook : m.lookup ds = some day)
    (hs : parseTimeStr ss = some s) (he : parseTimeStr es = some e) (hlt : ltT s e = true) :
    is_slot_available m ds ss es = .ok true ↔
      (leT day.workHours.1 s = true ∧ leT e day.workHours.2 = true ∧
        ∀ b ∈ day.busySlots, overlapB (s, e) b = false) := by
  have hg := getDaySchedule_of_isSome m ds hd
  rw [hlook] at hg
  have hts : leT e s = false := by
    rw [leT_eq_false_iff]
    exact (ltT_iff s e).mp hlt
  have hred : is_slot_available m ds ss es =
      (if !(leT day.workHours.1 s && leT e day.workHours.2) then Except.ok false
       else if day.busySlots.any (fun b => ltT (maxT s b.1) (minT e b.2)) then Except.ok false
       else Except.ok true) := by
    simp [is_slot_available, hs, he, hts, availAfterLookup, hg]
  rw [hred]
  by_cases hc : (leT day.workHours.1 s && leT e day.workHours.2) = true
  · by_cases hany : (day.busySlots.any fun b => ltT (maxT s b.1) (minT e b.2)) = true
    · simp only [hc, hany, Bool.not_true, Bool.false_eq_true, if_false, if_true]
      constructor
      · intro h
        exact absurd h (by simp)
      · rintro ⟨-, -, hall⟩
        rcases List.any_eq_true.mp hany with ⟨b, hb, hover⟩
        have hfb := hall b hb
        simp only [overlapB] at hfb
        rw [hfb] at hover
        cases hover
    · have hanyf : (day.busySlots.any fun b => ltT (maxT s b.1) (minT e b.2)) = false :=
        Bool.eq_false_iff.mpr hany
      rcases Bool.and_eq_true .. |>.mp hc with ⟨hc1, hc2⟩
      simp only [hc, hanyf, Bool.not_true, Bool.false_eq_true, if_false]
      constructor
      · intro _
        refine ⟨hc1, hc2, ?_⟩
        intro b hb
        have := List.any_eq_false.mp hanyf b hb
        simpa [overlapB] using this
      · intro _
        trivial
  · have hcf : (leT day.workHours.1 s && leT e day.workHours.2) = false :=
      Bool.eq_false_iff.mpr hc
    simp only [hcf, Bool.not_false, if_true]
    constructor
    · intro h
      exact absurd h (by simp)
    · rintro ⟨hc1, hc2, -⟩
      rw [hc1, hc2] at hcf
      cases hcf

/-- Witness for C2: on the unit-test model, the boundary-touching request
12:00-12:30 (the busy slot 11:00-12:00 ends at its start) is available. -/
theorem C2_witness :
    is_slot_available demoModel "2024-10-10" "12:00" "12:30" = .ok true :=
  (C2_slot_available_iff demoModel "2024-10-10" "12:00" "12:30" ⟨12, 0⟩ ⟨12, 30⟩
    ⟨(⟨9, 0⟩, ⟨18, 0⟩), [(⟨11, 0⟩, ⟨12, 0⟩), (⟨15, 0⟩, ⟨15, 30⟩)]⟩
    (by decide) (by decide) (by decide) (by decide) (by decide)).mpr (by decide)

lemma countP_contains_cons (t : ClockTime) (p : Slot) (l : List Slot) :
    (p :: l).countP (slotContains t) =
      (if toMin p.1 ≤ toMin t ∧ toMin t < toMin p.2 then 1 else 0) +
        l.countP (slotContains t) := by
  rw [List.countP_cons]
  by_cases hc : slotContains t p = true
  · rw [if_pos hc, if_pos ((slotContains_iff t p).mp hc)]
    omega
  · have hn : ¬(toMin p.1 ≤ toMin t ∧ toMin t < toMin p.2) := fun hx =>
      hc ((slotContains_iff t p).mpr hx)
    rw [if_neg (by simpa using hc), if_neg hn]
    omega

lemma sortedByStartB_pairwise :
    ∀ l : List Slot, sortedByStartB l = true →
      List.Pairwise (fun a b : Slot => toMin a.1 ≤ toMin b.1) l := by
  intro l
  induction l with
  | nil => simp
  | cons a rest ih =>
    cases rest with
    | nil => simp
    | cons b rest2 =>
      intro h
      have h2 : leT a.1 b.1 = true ∧ sortedByStartB (b :: rest2) = true := by
        simpa [sortedByStartB, Bool.and_eq_true] using h
      have hp := ih h2.2
      constructor
      · intro c hc
        rcases List.mem_cons.mp hc with rfl | hc
        · exact (leT_iff ..).mp h2.1
        · exact le_trans ((leT_iff ..).mp h2.1) ((List.pairwise_cons.mp hp).1 c hc)
      · exact hp

lemma pairwiseDisjointB_pairwise :
    ∀ l : List Slot, pairwiseDisjointB l = true →
      List.Pairwise (fun a b : Slot =>
        min (toMin a.2) (toMin b.2) ≤ max (toMin a.1) (toMin b.1)) l := by
  intro l
  induction l with
  | nil => simp
  | cons a rest ih =>
    intro h
    have h2 : (rest.all fun b => !overlapB a b) = true ∧ pairwiseDisjointB rest = true := by
      simpa [pairwiseDisjointB, Bool.and_eq_true] using h
    constructor
    · intro b hb
      have hover : overlapB a b = false := by
        have := List.all_eq_true.mp h2.1 b hb
        simpa using this
      have := (ltT_eq_false_iff ..).mp hover
      rw [toMin_maxT, toMin_minT] at this
      exact this
    · exact ih h2.2

lemma sweep_tiling (workEnd t : ClockTime) :
    ∀ (busy : List Slot) (cursor : ClockTime),
      (∀ s ∈ busy, toMin s.1 ≤ toMin s.2) →
      (∀ s ∈ busy, toMin s.2 ≤ toMin workEnd) →
      (∀ s ∈ busy, toMin s.1 < toMin s.2 → toMin cursor ≤ toMin s.1) →
      List.Pairwise (fun a b : Slot => toMin a.1 ≤ toMin b.1 ∧
        min (toMin a.2) (toMin b.2) ≤ max (toMin a.1) (toMin b.1)) busy →
      (freeSlotsSweep cursor workEnd busy).countP (slotContains t) +
          busy.countP (slotContains t) =
        if toMin cursor ≤ toMin t ∧ toMin t < toMin workEnd then 1 else 0 := by
  intro busy
  induction busy with
  | nil =>
    intro cursor _ _ _ _
    by_cases h : ltT cursor workEnd = true
    · have h1 := (ltT_iff cursor workEnd).mp h
      simp only [freeSlotsSweep, h, if_true, List.countP_nil]
      rw [countP_contains_cons]
      simp only [List.countP_nil]
      dsimp only
      split_ifs <;> omega
    · have hf : ltT cursor workEnd = false := Bool.eq_false_iff.mpr h
      have h1 := (ltT_eq_false_iff cursor workEnd).mp hf
      rw [show freeSlotsSweep cursor workEnd [] = [] by simp [freeSlotsSweep, hf]]
      simp only [List.countP_nil]
      split_ifs <;> omega
  | cons hd rest ih =>
    intro cursor hni hend hV hpw
    rcases hd with ⟨bs, be⟩
    have h1 : toMin bs ≤ toMin be := hni (bs, be) (by simp)
    have h2 : toMin be ≤ toMin workEnd := hend (bs, be) (by simp)
    rcases List.pairwise_cons.mp hpw with ⟨hhead, hpwrest⟩
    have hnir : ∀ s ∈ rest, toMin s.1 ≤ toMin s.2 := fun s hs => hni s (by simp [hs])
    have hendr : ∀ s ∈ rest, toMin s.2 ≤ toMin workEnd := fun s hs => hend s (by simp [hs])
    have hVr : ∀ s ∈ rest, toMin s.1 < toMin s.2 → toMin (maxT cursor be) ≤ toMin s.1 := by
      intro s hs hne
      have hcs := hV s (by simp [hs]) hne
      have hh := hhead s hs
      dsimp only at hh
      rw [toMin_maxT]
      omega
    have hIH := ih (maxT cursor be) hnir hendr hVr hpwrest
    rw [toMin_maxT] at hIH
    by_cases hlt : ltT cursor bs = true
    · have hclt := (ltT_iff cursor bs).mp hlt
      have hstep : freeSlotsSweep cursor workEnd ((bs, be) :: rest) =
          (cursor, bs) :: freeSlotsSweep (maxT cursor be) workEnd rest := by
        simp [freeSlotsSweep, hlt]
      rw [hstep, countP_contains_cons, countP_contains_cons]
      dsimp only
      split_ifs at hIH ⊢ <;> omega
    · have hcge := (ltT_eq_false_iff cursor bs).mp (by simpa using hlt)
      have hstep : freeSlotsSweep cursor workEnd ((bs, be) :: rest) =
          freeSlotsSweep (maxT cursor be) workEnd rest := by
        simp [freeSlotsSweep, hlt]
      have hVh : toMin bs < toMin be → toMin cursor ≤ toMin bs := hV (bs, be) (by simp)
      rcases Nat.lt_or_ge (toMin bs) (toMin be) with hx | hx
      · have hcb := hVh hx
        rw [hstep, countP_contains_cons]
        dsimp only
        split_ifs at hIH ⊢ <;> omega
      · rw [hstep, countP_contains_cons]
        dsimp only
        split_ifs at hIH ⊢ <;> omega

/-- C3 counterexample: pairwise disjointness of the busy slots alone does not
make free and busy slots tile the working hours.  Ingestion accepts a busy
slot `08:00`-`10:00` that starts before the working hours `09:00`-`18:00`;
the time 08:30 is covered by a returned busy slot (count 1 over free ++
busy) yet lies outside the working-hours interval, so the union is not an
exact tiling of `workHours`. -/
theorem C3_counterexample :
    processData earlySlotRaw = .ok earlySlotModel ∧
    get_free_slots earlySlotModel "2024-10-10" = .ok [(⟨10, 0⟩, ⟨18, 0⟩)] ∧
    get_busy_slots earlySlotModel "2024-10-10" = .ok [(⟨8, 0⟩, ⟨10, 0⟩)] ∧
    pairwiseDisjointB [(⟨8, 0⟩, ⟨10, 0⟩)] = true ∧
    (([(⟨10, 0⟩, ⟨18, 0⟩)] ++ [(⟨8, 0⟩, ⟨10, 0⟩)] : List Slot)).countP
        (slotContains ⟨8, 30⟩) = 1 ∧
    inIvB ⟨8, 30⟩ ⟨9, 0⟩ ⟨18, 0⟩ = false := by
  refine ⟨by decide, by decide, by decide, by decide, by decide, by decide⟩

/-- C3 (amended): for a date present in the model whose busy slots are
sorted ascending by start, pairwise disjoint, each with start ≤ end, and
contained in the working hours (the data invariants ingestion is trusted to
deliver), the intervals returned by `get_free_slots` together with those
returned by `get_busy_slots` exactly tile the `workHours` interval: every
time point of `workHours` is covered by exactly one interval of the combined
list, and no point outside `workHours` is covered at all. -/
theorem C3_free_and_busy_tile_work_hours (m : ScheduleModel) (ds : String) (day : DaySchedule)
    (t : ClockTime) (hd : (parseDateStr ds).isSome = true) (hlook : m.lookup ds = some day)
    (hsorted : sortedByStartB day.busySlots = true)
    (hdisj : pairwiseDisjointB day.busySlots = true)
    (hwf : ∀ s ∈ day.busySlots, leT s.1 s.2 = true)
    (hcont : ∀ s ∈ day.busySlots,
      leT day.workHours.1 s.1 = true ∧ leT s.2 day.workHours.2 = true) :
    get_free_slots m ds =
      .ok (freeSlotsSweep day.workHours.1 day.workHours.2 day.busySlots) ∧
    get_busy_slots m ds = .ok day.busySlots ∧
    (freeSlotsSweep day.workHours.1 day.workHours.2 day.busySlots ++
        day.busySlots).countP (slotContains t) =
      if inIvB t day.workHours.1 day.workHours.2 = true then 1 else 0 := by
  have hg := getDaySchedule_of_isSome m ds hd
  rw [hlook] at hg
  refine ⟨by simp [get_free_slots, hg], by simp [get_busy_slots, hg], ?_⟩
  have hni : ∀ s ∈ day.busySlots, toMin s.1 ≤ toMin s.2 := fun s hs =>
    (leT_iff ..).mp (hwf s hs)
  have hend : ∀ s ∈ day.busySlots, toMin s.2 ≤ toMin day.workHours.2 := fun s hs =>
    (leT_iff ..).mp (hcont s hs).2
  have hV : ∀ s ∈ day.busySlots, toMin s.1 < toMin s.2 →
      toMin day.workHours.1 ≤ toMin s.1 := fun s hs _ =>
    (leT_iff ..).mp (hcont s hs).1
  have hpw := (sortedByStartB_pairwise day.busySlots hsorted).and
    (pairwiseDisjointB_pairwise day.busySlots hdisj)
  have htile := sweep_tiling day.workHours.2 t day.busySlots day.workHours.1 hni hend hV hpw
  rw [List.countP_append, htile]
  by_cases hin : inIvB t day.workHours.1 day.workHours.2 = true
  · rw [if_pos ((inIvB_iff ..).mp hin), if_pos hin]
  · have hin2 : ¬(toMin day.workHours.1 ≤ toMin t ∧ toMin t < toMin day.workHours.2) :=
      fun hx => hin ((inIvB_iff ..).mpr hx)
    rw [if_neg hin2, if_neg hin]

/-- Witness for C3 (amended) on the unit-test model at the probe time 11:30,
which lies inside the busy slot 11:00-12:00. -/
theorem C3_witness :
    get_free_slots demoModel "2024-10-10" =
      .ok (freeSlotsSweep ⟨9, 0⟩ ⟨18, 0⟩ [(⟨11, 0⟩, ⟨12, 0⟩), (⟨15, 0⟩, ⟨15, 30⟩)]) ∧
    get_busy_slots demoModel "2024-10-10" =
      .ok [(⟨11, 0⟩, ⟨12, 0⟩), (⟨15, 0⟩, ⟨15, 30⟩)] ∧
    ((freeSlotsSweep ⟨9, 0⟩ ⟨18, 0⟩ [(⟨11, 0⟩, ⟨12, 0⟩), (⟨15, 0⟩, ⟨15, 30⟩)] ++
        ([(⟨11, 0⟩, ⟨12, 0⟩), (⟨15, 0⟩, ⟨15, 30⟩)] : List Slot))).countP
        (slotContains ⟨11, 30⟩) =
      if inIvB ⟨11, 30⟩ ⟨9, 0⟩ ⟨18, 0⟩ = true then 1 else 0 :=
  C3_free_and_busy_tile_work_hours demoModel "2024-10-10"
    ⟨(⟨9, 0⟩, ⟨18, 0⟩), [(⟨11, 0⟩, ⟨12, 0⟩), (⟨15, 0⟩, ⟨15, 30⟩)]⟩ ⟨11, 30⟩
    (by decide) (by decide) (by decide) (by decide) (by decide) (by decide)

lemma buildDaysAux_ok (l : List (Int × DayRecord)) :
    ∀ acc, (∀ p ∈ l, dayTimesOk p.2 = true) → ∃ m, buildDaysAux acc l = .ok m := by
  induction l with
  | nil => intro acc _; exact ⟨acc, rfl⟩
  | cons p rest ih =>
    intro acc hall
    rcases p with ⟨i, day⟩
    have hok := hall (i, day) (by simp)
    dsimp only [dayTimesOk] at hok
    rcases Bool.and_eq_true .. |>.mp hok with ⟨hok1, hok2⟩
    rcases hps : parseTimeStr day.startStr with _ | s
    · rw [hps] at hok1; cases hok1
    rcases hpe : parseTimeStr day.endStr with _ | e
    · rw [hpe] at hok2; cases hok2
    rcases ih (dictInsert day.date ⟨(s, e), []⟩ acc) (fun q hq => hall q (by simp [hq]))
      with ⟨m, hm⟩
    exact ⟨m, by simp [buildDaysAux, hps, hpe, hm]⟩

lemma buildDaysAux_error (l : List (Int × DayRecord)) :
    ∀ acc, (∃ p ∈ l, dayTimesOk p.2 = false) →
      buildDaysAux acc l = .error .formatError := by
  induction l with
  | nil => intro acc h; rcases h with ⟨p, hp, -⟩; cases hp
  | cons p rest ih =>
    intro acc hex
    rcases p with ⟨i, day⟩
    by_cases hbad : dayTimesOk day = false
    · dsimp only [dayTimesOk] at hbad
      rcases hps : parseTimeStr day.startStr with _ | s
      · simp [buildDaysAux, hps]
      rcases hpe : parseTimeStr day.endStr with _ | e
      · simp [buildDaysAux, hps, hpe]
      · rw [hps, hpe] at hbad
        simp at hbad
    · have hgood : dayTimesOk day = true := by
        rcases hx : dayTimesOk day with _ | _
        · exact absurd hx hbad
        · rfl
      have hgood2 : ((parseTimeStr day.startStr).isSome &&
          (parseTimeStr day.endStr).isSome) = true := hgood
      rcases Bool.and_eq_true .. |>.mp hgood2 with ⟨hok1, hok2⟩
      rcases hps : parseTimeStr day.startStr with _ | s
      · rw [hps] at hok1; cases hok1
      rcases hpe : parseTimeStr day.endStr with _ | e
      · rw [hpe] at hok2; cases hok2
      have hrest : ∃ q ∈ rest, dayTimesOk q.2 = false := by
        rcases hex with ⟨q, hq, hqb⟩
        rcases List.mem_cons.mp hq with rfl | hq2
        · exact absurd hqb (by simp [hgood])
        · exact ⟨q, hq2, hqb⟩
      simp [buildDaysAux, hps, hpe, ih _ hrest]

lemma buildDaysAux_error_eq (l : List (Int × DayRecord)) :
    ∀ acc e, buildDaysAux acc l = .error e → e = .formatError := by
  induction l with
  | nil => intro acc e h; cases h
  | cons p rest ih =>
    intro acc e h
    rcases p with ⟨i, day⟩
    rcases hps : parseTimeStr day.startStr with _ | s
    · rw [show buildDaysAux acc ((i, day) :: rest) = .error .formatError by
        simp [buildDaysAux, hps]] at h
      cases h
      rfl
    rcases hpe : parseTimeStr day.endStr with _ | e2
    · rw [show buildDaysAux acc ((i, day) :: rest) = .error .formatError by
        simp [buildDaysAux, hps, hpe]] at h
      cases h
      rfl
    · rw [show buildDaysAux acc ((i, day) :: rest) =
          buildDaysAux (dictInsert day.date ⟨(s, e2), []⟩ acc) rest by
        simp [buildDaysAux, hps, hpe]] at h
      exact ih _ e h

lemma addSlotsAux_ok (dbi : List (Int × DayRecord)) (l : List SlotRecord) :
    ∀ acc, (∀ s ∈ l, (dbi.lookup s.day_id).isSome = true → slotTimesOk s = true) →
      ∃ m, addSlotsAux dbi acc l = .ok m := by
  induction l with
  | nil => intro acc _; exact ⟨acc, rfl⟩
  | cons slot rest ih =>
    intro acc hall
    rcases hlk : dbi.lookup slot.day_id with _ | day
    · rcases ih acc (fun q hq => hall q (by simp [hq])) with ⟨m, hm⟩
      exact ⟨m, by simp [addSlotsAux, hlk, hm]⟩
    · have hok : slotTimesOk slot = true := hall slot (by simp) (by rw [hlk]; rfl)
      have hok2 : ((parseTimeStr slot.startStr).isSome &&
          (parseTimeStr slot.endStr).isSome) = true := hok
      rcases Bool.and_eq_true .. |>.mp hok2 with ⟨hok3, hok4⟩
      rcases hps : parseTimeStr slot.startStr with _ | s
      · rw [hps] at hok3; cases hok3
      rcases hpe : parseTimeStr slot.endStr with _ | e
      · rw [hpe] at hok4; cases hok4
      rcases ih (appendBusy day.date (s, e) acc) (fun q hq => hall q (by simp [hq]))
        with ⟨m, hm⟩
      exact ⟨m, by simp [addSlotsAux, hlk, hps, hpe, hm]⟩

lemma addSlotsAux_error (dbi : List (Int × DayRecord)) (l : List SlotRecord) :
    ∀ acc, (∃ s ∈ l, (dbi.lookup s.day_id).isSome = true ∧ slotTimesOk s = false) →
      addSlotsAux dbi acc l = .error .formatError := by
  induction l with
  | nil => intro acc h; rcases h with ⟨q, hq, -⟩; cases hq
  | cons slot rest ih =>
    intro acc hex
    rcases hlk : dbi.lookup slot.day_id with _ | day
    · have hrest : ∃ q ∈ rest, (dbi.lookup q.day_id).isSome = true ∧ slotTimesOk q = false := by
        rcases hex with ⟨q, hq, hq1, hq2⟩
        rcases List.mem_cons.mp hq with rfl | hq3
        · rw [hlk] at hq1; cases hq1
        · exact ⟨q, hq3, hq1, hq2⟩
      simp [addSlotsAux, hlk, ih _ hrest]
    · by_cases hbad : slotTimesOk slot = false
      · rcases hps : parseTimeStr slot.startStr with _ | s
        · simp [addSlotsAux, hlk, hps]
        rcases hpe : parseTimeStr slot.endStr with _ | e
        · simp [addSlotsAux, hlk, hps, hpe]
        · have : slotTimesOk slot = true := by
            have : ((parseTimeStr slot.startStr).isSome &&
                (parseTimeStr slot.endStr).isSome) = true := by
              rw [hps, hpe]; rfl
            exact this
          rw [this] at hbad; cases hbad
      · have hgood : slotTimesOk slot = true := by
          rcases hx : slotTimesOk slot with _ | _
          · exact absurd hx hbad
          · rfl
        have hgood2 : ((parseTimeStr slot.startStr).isSome &&
            (parseTimeStr slot.endStr).isSome) = true := hgood
        rcases Bool.and_eq_true .. |>.mp hgood2 with ⟨hok3, hok4⟩
        rcases hps : parseTimeStr slot.startStr with _ | s
        · rw [hps] at hok3; cases hok3
        rcases hpe : parseTimeStr slot.endStr with _ | e
        · rw [hpe] at hok4; cases hok4
        have hrest : ∃ q ∈ rest, (dbi.lookup q.day_id).isSome = true ∧ slotTimesOk q = false := by
          rcases hex with ⟨q, hq, hq1, hq2⟩
          rcases List.mem_cons.mp hq with rfl | hq3
          · rw [hgood] at hq2; cases hq2
          · exact ⟨q, hq3, hq1, hq2⟩
        simp [addSlotsAux, hlk, hps, hpe, ih _ hrest]

lemma addSlotsAux_error_eq (dbi : List (Int × DayRecord)) (l : List SlotRecord) :
    ∀ acc e, addSlotsAux dbi acc l = .error e → e = .formatError := by
  induction l with
  | nil => intro acc e h; cases h
  | cons slot rest ih =>
    intro acc e h
    rcases hlk : dbi.lookup slot.day_id with _ | day
    · rw [show addSlotsAux dbi acc (slot :: rest) = addSlotsAux dbi acc rest by
        simp [addSlotsAux, hlk]] at h
      exact ih _ e h
    rcases hps : parseTimeStr slot.startStr with _ | s
    · rw [show addSlotsAux dbi acc (slot :: rest) = .error .formatError by
        simp [addSlotsAux, hlk, hps]] at h
      cases h
      rfl
    rcases hpe : parseTimeStr slot.endStr with _ | e2
    · rw [show addSlotsAux dbi acc (slot :: rest) = .error .formatError by
        simp [addSlotsAux, hlk, hps, hpe]] at h
      cases h
      rfl
    · rw [show addSlotsAux dbi acc (slot :: rest) =
          addSlotsAux dbi (appendBusy day.date (s, e2) acc) rest by
        simp [addSlotsAux, hlk, hps, hpe]] at h
      exact ih _ e h

lemma processData_error_iff (raw : RawData) :
    processData raw = .error .formatError ↔
      ¬((∀ p ∈ daysByIdOf raw, dayTimesOk p.2 = true) ∧
        (∀ s ∈ raw.timeslots, slotResolvable raw s = true → slotTimesOk s = true)) := by
  by_cases hdays : ∀ p ∈ daysByIdOf raw, dayTimesOk p.2 = true
  · rcases buildDaysAux_ok (daysByIdOf raw) [] hdays with ⟨m, hm⟩
    by_cases hsl : ∀ s ∈ raw.timeslots, slotResolvable raw s = true → slotTimesOk s = true
    · rcases addSlotsAux_ok (daysByIdOf raw) raw.timeslots m hsl with ⟨m2, hm2⟩
      have hpd : processData raw =
          .ok (m2.map (fun p => (p.1, ⟨p.2.workHours, sortByStart p.2.busySlots⟩))) := by
        simp [processData, hm, hm2]
      constructor
      · intro h
        rw [hpd] at h
        cases h
      · intro hn
        exact absurd ⟨hdays, hsl⟩ hn
    · push_neg at hsl
      rcases hsl with ⟨s, hs, hres, hbad⟩
      have hbad2 : slotTimesOk s = false := Bool.not_eq_true _ |>.mp hbad
      have herr := addSlotsAux_error (daysByIdOf raw) raw.timeslots m ⟨s, hs, hres, hbad2⟩
      have hpd : processData raw = .error .formatError := by
        simp [processData, hm, herr]
      constructor
      · intro _
        exact fun hc => hbad (hc.2 s hs hres)
      · intro _
        exact hpd
  · push_neg at hdays
    rcases hdays with ⟨p, hp, hbadp⟩
    have hbad2 : dayTimesOk p.2 = false := Bool.not_eq_true _ |>.mp hbadp
    have herr := buildDaysAux_error (daysByIdOf raw) [] ⟨p, hp, hbad2⟩
    have hpd : processData raw = .error .formatError := by
      simp [processData, herr]
    constructor
    · intro _
      exact fun hc => hbadp (hc.1 p hp)
    · intro _
      exact hpd

lemma processData_error_eq (raw : RawData) (e : SchedError) :
    processData raw = .error e → e = .formatError := by
  intro h
  cases hb : buildDaysAux [] (daysByIdOf raw) with
  | error e1 =>
    rw [show processData raw = .error e1 by simp [processData, hb]] at h
    cases h
    exact buildDaysAux_error_eq _ _ _ hb
  | ok m =>
    cases ha : addSlotsAux (daysByIdOf raw) m raw.timeslots with
    | error e2 =>
      rw [show processData raw = .error e2 by simp [processData, hb, ha]] at h
      cases h
      exact addSlotsAux_error_eq _ _ _ _ ha
    | ok m2 =>
      rw [show processData raw =
          .ok (m2.map (fun p => (p.1, ⟨p.2.workHours, sortByStart p.2.busySlots⟩))) by
        simp [processData, hb, ha]] at h
      cases h

/-- C4 counterexample: the claim says every timeslot record with an
unparsable clock-time string aborts ingestion with a `FormatError`; but a
timeslot whose `day_id` matches no day record is dropped before its time
strings are ever parsed, so ingestion of `orphanBadTimeRaw` — whose only
timeslot has the unparsable start time `"9-XX"` and an unknown `day_id` —
succeeds. -/
theorem C4_counterexample :
    parseTimeStr "9-XX" = none ∧
    (∃ s ∈ orphanBadTimeRaw.timeslots, slotTimesOk s = false) ∧
    processData orphanBadTimeRaw = .ok [("2024-10-10", ⟨(⟨9, 0⟩, ⟨18, 0⟩), []⟩)] := by
  refine ⟨by decide, ⟨⟨2, "9-XX", "10:00"⟩, by decide, by decide⟩, by decide⟩

/-- C4 (amended): ingestion fails — with `FormatError`, its only error, and
producing no model at all — exactly when some day record surviving the
id-deduplication (`days_by_id`, last record per id) has an unparsable clock
time, or some timeslot record whose `day_id` matches a day record has an
unparsable clock time.  In particular a timeslot whose `day_id` matches no
day record is silently dropped without parsing its times, so it never causes
an error even when they are malformed. -/
theorem C4_ingestion_fail_fast (raw : RawData) :
    (processData raw = .error .formatError ↔
      ¬((∀ p ∈ daysByIdOf raw, dayTimesOk p.2 = true) ∧
        (∀ s ∈ raw.timeslots, slotResolvable raw s = true → slotTimesOk s = true))) ∧
    (∀ e, processData raw = .error e → e = .formatError) :=
  ⟨processData_error_iff raw, processData_error_eq raw⟩

/-- Witness for C4 (amended): ingestion of the unit-test payload does not
fail, because all its surviving day records and resolvable timeslots have
parsable times. -/
theorem C4_witness : processData demoRaw ≠ .error .formatError := fun h =>
  ((C4_ingestion_fail_fast demoRaw).1.mp h) (by decide)

lemma dictAppendSlot_absent (k : String) (v : Slot) :
    ∀ acc : List (String × List Slot), k ∉ acc.map Prod.fst →
      dictAppendSlot k v acc = acc ++ [(k, [v])] := by
  intro acc
  induction acc with
  | nil => intro _; rfl
  | cons p rest ih =>
    intro h
    rcases p with ⟨k', l⟩
    simp only [List.map_cons, List.mem_cons, not_or] at h
    have hk' : ¬(k' = k) := fun hx => h.1 hx.symm
    simp [dictAppendSlot, hk', ih h.2]

lemma dictAppendSlot_last (k : String) (v : Slot) (l : List Slot) :
    ∀ acc : List (String × List Slot), k ∉ acc.map Prod.fst →
      dictAppendSlot k v (acc ++ [(k, l)]) = acc ++ [(k, l ++ [v])] := by
  intro acc
  induction acc with
  | nil => intro _; simp [dictAppendSlot]
  | cons p rest ih =>
    intro h
    rcases p with ⟨k', w⟩
    simp only [List.map_cons, List.mem_cons, not_or] at h
    have hk' : ¬(k' = k) := fun hx => h.1 hx.symm
    simp [dictAppendSlot, hk', ih h.2]

lemma foldQual_last (dur : Int) (ds : String) :
    ∀ (free : List Slot) (acc : List (String × List Slot)) (l : List Slot),
      ds ∉ acc.map Prod.fst →
      free.foldl (fun a p => if dur ≤ spanViaDummy p.1 p.2 then dictAppendSlot ds p a else a)
          (acc ++ [(ds, l)]) =
        acc ++ [(ds, l ++ free.filter (fun p => decide (dur ≤ spanViaDummy p.1 p.2)))] := by
  intro free
  induction free with
  | nil => intro acc l _; simp
  | cons p rest ih =>
    intro acc l h
    by_cases hq : dur ≤ spanViaDummy p.1 p.2
    · rw [List.foldl_cons, if_pos hq, dictAppendSlot_last ds p l acc h, ih acc (l ++ [p]) h]
      simp [List.filter_cons, hq]
    · rw [List.foldl_cons, if_neg hq, ih acc l h]
      simp [List.filter_cons, hq]

lemma foldQual (dur : Int) (ds : String) :
    ∀ (free : List Slot) (acc : List (String × List Slot)),
      ds ∉ acc.map Prod.fst →
      free.foldl (fun a p => if dur ≤ spanViaDummy p.1 p.2 then dictAppendSlot ds p a else a)
          acc =
        (if free.filter (fun p => decide (dur ≤ spanViaDummy p.1 p.2)) = [] then acc
         else acc ++ [(ds, free.filter (fun p => decide (dur ≤ spanViaDummy p.1 p.2)))]) := by
  intro free
  induction free with
  | nil => intro acc _; simp
  | cons p rest ih =>
    intro acc h
    by_cases hq : dur ≤ spanViaDummy p.1 p.2
    · rw [List.foldl_cons, if_pos hq, dictAppendSlot_absent ds p acc h,
        foldQual_last dur ds rest acc [p] h]
      have hf : (p :: rest).filter (fun p => decide (dur ≤ spanViaDummy p.1 p.2)) =
          p :: rest.filter (fun p => decide (dur ≤ spanViaDummy p.1 p.2)) := by
        simp [List.filter_cons, hq]
      rw [hf]
      simp
    · rw [List.foldl_cons, if_neg hq, ih acc h]
      have hf : (p :: rest).filter (fun p => decide (dur ≤ spanViaDummy p.1 p.2)) =
          rest.filter (fun p => decide (dur ≤ spanViaDummy p.1 p.2)) := by
        simp [List.filter_cons, hq]
      rw [hf]

lemma filter_span_eq_qualifying (dur : Int) (free : List Slot) :
    free.filter (fun p => decide (dur ≤ spanViaDummy p.1 p.2)) = qualifying dur free := by
  apply List.filter_congr
  intro p _
  rw [spanViaDummy_eq_spanDirect]

lemma insertStr_perm (x : String) : ∀ l : List String, (insertStr x l).Perm (x :: l) := by
  intro l
  induction l with
  | nil => exact List.Perm.refl _
  | cons y rest ih =>
    by_cases h : strLt x y = true
    · simp [insertStr, h]
    · rw [show insertStr x (y :: rest) = y :: insertStr x rest by simp [insertStr, h]]
      exact (ih.cons y).trans (List.Perm.swap x y rest)

lemma sortStrs_perm_aux : ∀ (l acc : List String),
    (l.foldl (fun a x => insertStr x a) acc).Perm (acc ++ l) := by
  intro l
  induction l with
  | nil => intro acc; simp
  | cons x rest ih =>
    intro acc
    have h1 := ih (insertStr x acc)
    have h2 : (insertStr x acc ++ rest).Perm (acc ++ x :: rest) := by
      refine ((insertStr_perm x acc).append_right rest).trans ?_
      exact List.perm_middle.symm
    exact (List.foldl_cons .. ▸ h1).trans h2

lemma sortStrs_perm (l : List String) : (sortStrs l).Perm l := by
  have := sortStrs_perm_aux l []
  simpa [sortStrs] using this

lemma get_free_slots_eval (m : ScheduleModel) (ds : String)
    (h : (parseDateStr ds).isSome = true) :
    get_free_slots m ds = .ok (match m.lookup ds with
      | none => []
      | some day => freeSlotsSweep day.workHours.1 day.workHours.2 day.busySlots) := by
  have hg := getDaySchedule_of_isSome m ds h
  cases hl : m.lookup ds <;> rw [hl] at hg <;> simp [get_free_slots, hg]

lemma findAux_eq (m : ScheduleModel) (dur : Int) :
    ∀ (keys : List String) (acc : List (String × List Slot)),
      (∀ k ∈ keys, (parseDateStr k).isSome = true) →
      (∀ k ∈ keys, k ∉ acc.map Prod.fst) →
      keys.Nodup →
      findAux m dur keys acc = .ok (acc ++ keys.filterMap (fun ds =>
        match m.lookup ds with
        | none => none
        | some day =>
          let q := qualifying dur
            (freeSlotsSweep day.workHours.1 day.workHours.2 day.busySlots)
          if q = [] then none else some (ds, q))) := by
  intro keys
  induction keys with
  | nil => intro acc _ _ _; simp [findAux]
  | cons ds rest ih =>
    intro acc hks hnotin hnd
    rcases List.nodup_cons.mp hnd with ⟨hdsrest, hndrest⟩
    have h1r : ∀ k ∈ rest, (parseDateStr k).isSome = true := fun k hk => hks k (by simp [hk])
    cases hl : m.lookup ds with
    | none =>
      have hfs : get_free_slots m ds = .ok [] := by
        rw [get_free_slots_eval m ds (hks ds (by simp)), hl]
      have hstep : findAux m dur (ds :: rest) acc = findAux m dur rest acc := by
        simp [findAux, hfs]
      rw [hstep, ih acc h1r (fun k hk => hnotin k (by simp [hk])) hndrest]
      simp [List.filterMap_cons, hl]
    | some day =>
      have hfs : get_free_slots m ds =
          .ok (freeSlotsSweep day.workHours.1 day.workHours.2 day.busySlots) := by
        rw [get_free_slots_eval m ds (hks ds (by simp)), hl]
      have hstep : findAux m dur (ds :: rest) acc =
          findAux m dur rest
            ((freeSlotsSweep day.workHours.1 day.workHours.2 day.busySlots).foldl
              (fun a p => if dur ≤ spanViaDummy p.1 p.2 then dictAppendSlot ds p a else a)
              acc) := by
        simp [findAux, hfs]
      rw [hstep,
        foldQual dur ds (freeSlotsSweep day.workHours.1 day.workHours.2 day.busySlots)
          acc (hnotin ds (by simp))]
      simp only [filter_span_eq_qualifying]
      by_cases hqe : qualifying dur
          (freeSlotsSweep day.workHours.1 day.workHours.2 day.busySlots) = []
      · rw [if_pos hqe, ih acc h1r (fun k hk => hnotin k (by simp [hk])) hndrest]
        simp [List.filterMap_cons, hl, hqe]
      · rw [if_neg hqe]
        have hnotin2 : ∀ k ∈ rest,
            k ∉ (acc ++ [(ds, qualifying dur
              (freeSlotsSweep day.workHours.1 day.workHours.2 day.busySlots))]).map
              Prod.fst := by
          intro k hk
          simp only [List.map_append, List.mem_append, List.map_cons, List.map_nil,
            List.mem_cons, List.not_mem_nil, not_or]
          refine ⟨hnotin k (by simp [hk]), ?_, fun hc => hc⟩
          intro hkd
          exact hdsrest (hkd ▸ hk)
        rw [ih _ h1r hnotin2 hndrest]
        simp [List.filterMap_cons, hl, hqe]

/-- C5: `find_available_slots_for_duration` fails with `InvalidDuration`
exactly when the requested duration is non-positive; otherwise (for a model
with well-formed, duplicate-free date keys, as the source dictionary
guarantees) it returns each date of the model in ascending date order mapped
to those of its free slots whose span in minutes is at least the requested
duration (exact equality qualifies), with dates contributing no qualifying
slot omitted entirely. -/
theorem C5_duration_search (m : ScheduleModel) (dur : Int)
    (hkeys : ∀ k ∈ m.map Prod.fst, (parseDateStr k).isSome = true)
    (hnodup : (m.map Prod.fst).Nodup) :
    (dur ≤ 0 → find_available_slots_for_duration m dur = .error .invalidDuration) ∧
    (0 < dur → find_available_slots_for_duration m dur = .ok (findSpec m dur)) := by
  constructor
  · intro h
    simp [find_available_slots_for_duration, h]
  · intro h
    have hpos : ¬ dur ≤ 0 := by omega
    rw [show find_available_slots_for_duration m dur =
        findAux m dur (sortStrs (m.map Prod.fst)) [] by
      simp [find_available_slots_for_duration, hpos]]
    have hperm := sortStrs_perm (m.map Prod.fst)
    rw [findAux_eq m dur (sortStrs (m.map Prod.fst)) []
      (fun k hk => hkeys k (hperm.mem_iff.mp hk)) (by simp)
      (hperm.nodup_iff.mpr hnodup)]
    rw [findSpec]
    simp

/-- Witness for C5 on the unit-test model with a 60-minute request. -/
theorem C5_witness :
    find_available_slots_for_duration demoModel 60 = .ok (findSpec demoModel 60) :=
  (C5_duration_search demoModel 60 (by decide) (by decide)).2 (by decide)
